import Mathlib

/-!
Verification development for the Ludo game server in `main.py`.

The Python source keeps each room as a dictionary
`{players, current_turn, game_state, dice_result, ...}` and handles three
websocket actions (`start_game`, `roll_dice`, `move_piece`) plus a
`broadcast_to_room` helper.  Below the room state and the three handlers are
embedded as pure Lean functions, translated line by line from the source.
Handlers that can raise an uncaught Python exception (indexing a missing
current player, `None + int` arithmetic) return `none`.
-/

set_option maxRecDepth 4000

namespace Ludo

/-- Player colors, assigned in join order (main.py line 110). -/
inductive Color where
  | red
  | blue
  | green
  | yellow
  deriving DecidableEq

/-- A piece dictionary (main.py lines 69-72): `position` is the rendering tag
(the source stores the string "home", a decimal cell number, or a
color-tagged home-stretch label such as "bf54"; when a piece enters the board
the source stores the bare entry integer, rendered here as its decimal
string), `index` the numeric cell, `home` whether the piece is still in its
starting pen. -/
structure Piece where
  pid : String
  position : String
  index : Nat
  home : Bool
  deriving DecidableEq

/-- A player dictionary (main.py lines 113-123). -/
structure Player where
  pid : String
  name : String
  color : Color
  pieces : List Piece
  deriving DecidableEq

/-- The game-relevant fields of a room dictionary (main.py lines 62-79). -/
structure Room where
  players : List Player
  current_turn : Nat
  game_state : String
  dice_result : Option Nat
  deriving DecidableEq

/-- Outbound broadcast messages produced while handling one action
(`type` tags of main.py lines 171-246). -/
inductive Event where
  | game_started
  | dice_rolled (d : Nat)
  | piece_moved
  | game_won (winner : String)
  deriving DecidableEq

/-- Entry cells per color (main.py line 198). -/
def start_pos : Color → Nat
  | .red => 1
  | .blue => 40
  | .green => 14
  | .yellow => 27

/-- Safe squares (main.py line 199). -/
def safe_squares : List Nat := [1, 9, 14, 22, 27, 35, 40, 48]

/-- main.py line 200. -/
def home_entry : Nat := 51

/-- main.py line 201. -/
def final_home : Nat := 57

/-- The index arithmetic of main.py lines 210-212: the new index of a
non-home piece moved by `d` pips. -/
def new_index_code (i d : Nat) : Nat :=
  let n := if i + d ≤ home_entry then (i + d) % 52 else i + d
  if n > final_home then final_home else n

/-- Tag used for home-stretch `position` strings (main.py lines 215-218). -/
def stretch_tag : Color → String
  | .red => "rf"
  | .blue => "bf"
  | .green => "gf"
  | .yellow => "yf"

/-- The `position` string written at main.py lines 213-219. -/
def position_of (c : Color) (n : Nat) : String :=
  if n ≤ home_entry then toString n else stretch_tag c ++ toString n

/-- Resetting one opponent piece on a capture (main.py lines 227-230); the
reset fires exactly on the source's per-piece condition. -/
def capture_reset (landed : Nat) (p : Piece) : Piece :=
  if p.index = landed ∧ p.home = false then
    { p with index := 0, position := "home", home := true }
  else p

/-- The opponent loop of main.py lines 224-231: players other than the
current player (compared by id) have each piece run through
`capture_reset`. -/
def apply_capture (cpId : String) (landed : Nat) (pl : Player) : Player :=
  if pl.pid = cpId then pl
  else { pl with pieces := pl.pieces.map (capture_reset landed) }

/-- Whether the opponent loop of main.py lines 224-231 would reset at least
one piece (this is what makes the source set `extra_turn = True` there). -/
def capture_possible (cpId : String) (landed : Nat) (players : List Player) : Bool :=
  players.any (fun pl => pl.pid != cpId && pl.pieces.any (fun p => p.index == landed && !p.home))

/-- In-place mutation of the found piece inside the current player's piece
list: the source mutates the dictionary `next(...)` returned, i.e. the first
piece with the matching id. -/
def set_piece : List Piece → Piece → List Piece
  | [], _ => []
  | p :: ps, q => if p.pid = q.pid then q :: ps else p :: set_piece ps q

/-- The piece as mutated when it leaves home on a 6 (main.py lines 205-207);
the source stores the bare entry integer in `position`, rendered here as its
decimal string. -/
def entry_piece (cp : Player) (piece : Piece) : Piece :=
  { piece with position := toString (start_pos cp.color), index := start_pos cp.color, home := false }

/-- The piece as mutated in the non-home branch (main.py lines 210-220). -/
def moved_piece (cp : Player) (piece : Piece) (d : Nat) : Piece :=
  let ni := new_index_code piece.index d
  { piece with position := position_of cp.color ni, index := ni, home := false }

/-- The player list after writing the mutated piece back into the current
player (the in-place dictionary mutation of the source, made explicit). -/
def with_move (room : Room) (cp : Player) (q : Piece) : List Player :=
  room.players.set room.current_turn { cp with pieces := set_piece cp.pieces q }

/-- The capture guard of main.py line 223: the landed cell is not a safe
square and still on the numeric shared-track range. -/
def do_capture (piece : Piece) (d : Nat) : Bool :=
  let ni := new_index_code piece.index d
  !(safe_squares.contains ni) && decide (ni ≤ home_entry)

/-- The player list after the non-home branch, capture loop included
(main.py lines 210-231). -/
def ontrack_players (room : Room) (cp : Player) (piece : Piece) (d : Nat) : List Player :=
  let ni := new_index_code piece.index d
  let withMove := with_move room cp (moved_piece cp piece d)
  if do_capture piece d then withMove.map (apply_capture cp.pid ni) else withMove

/-- The `extra_turn` flag after the non-home branch (main.py lines 202,
221-231): reaching the terminal index, or an actual capture. -/
def ontrack_extra (room : Room) (cp : Player) (piece : Piece) (d : Nat) : Bool :=
  let ni := new_index_code piece.index d
  (ni == final_home) || (do_capture piece d && capture_possible cp.pid ni (with_move room cp (moved_piece cp piece d)))

/-- The three-way branch of main.py lines 204-231.  Returns the updated
player list, the current player's updated piece list (the `current_player`
alias the win check reads), and the `extra_turn` flag; `none` when the source
would raise a `TypeError` (`piece["index"] + None` at line 210). -/
def move_step (room : Room) (cp : Player) (piece : Piece) : Option (List Player × List Piece × Bool) :=
  if piece.home && room.dice_result == some 6 then
    some (with_move room cp (entry_piece cp piece), set_piece cp.pieces (entry_piece cp piece), true)
  else if !piece.home then
    match room.dice_result with
    | none => none
    | some d =>
      some (ontrack_players room cp piece d, set_piece cp.pieces (moved_piece cp piece d),
            ontrack_extra room cp piece d)
  else
    some (room.players, cp.pieces, false)

/-- The common tail of main.py lines 233-247: win check over the (mutated)
current player's pieces, win broadcast, turn update, dice clearing, move
broadcast. -/
def finish_move (room : Room) (cp : Player) (players2 : List Player) (cpPieces : List Piece)
    (extra : Bool) : Room × List Event :=
  let win := cpPieces.all (fun p => p.index == final_home)
  ({ players := players2,
     current_turn :=
       if room.dice_result == some 6 || extra then room.current_turn
       else (room.current_turn + 1) % players2.length,
     game_state := if win then "finished" else room.game_state,
     dice_result := none },
   (if win then [Event.game_won cp.name] else []) ++ [Event.piece_moved])

/-- Body of the `move_piece` handler once the piece was found
(main.py lines 198-247). -/
def move_piece_found (room : Room) (cp : Player) (piece : Piece) : Option (Room × List Event) :=
  match move_step room cp piece with
  | none => none
  | some (players2, cpPieces, extra) => some (finish_move room cp players2 cpPieces extra)

/-- The `move_piece` action handler (main.py lines 189-247), for an existing
room.  `none` models an uncaught Python exception (current turn out of range,
or the `TypeError` path); `some (room, [])` is the silently-ignored case. -/
def move_piece (room : Room) (player_id piece_id : String) : Option (Room × List Event) :=
  match room.players[room.current_turn]? with
  | none => none
  | some cp =>
    if cp.pid = player_id then
      match cp.pieces.find? (fun p => p.pid == piece_id) with
      | none => some (room, [])
      | some piece => move_piece_found room cp piece
    else some (room, [])

/-- The `roll_dice` action handler (main.py lines 176-187), for an existing
room; `d` is the value drawn by `random.randint(1, 6)`. -/
def roll_dice (room : Room) (player_id : String) (d : Nat) : Option (Room × List Event) :=
  match room.players[room.current_turn]? with
  | none => none
  | some cp =>
    if cp.pid = player_id then
      some ({ room with dice_result := some d }, [Event.dice_rolled d])
    else some (room, [])

/-- The `start_game` action handler (main.py lines 168-174), for an existing
room. -/
def start_game (room : Room) : Room × List Event :=
  if 2 ≤ room.players.length then
    ({ room with game_state := "playing" }, [Event.game_started])
  else (room, [])

/-- One registered websocket connection; `alive` says whether
`send_text` succeeds on it. -/
structure Conn where
  cid : Nat
  alive : Bool
  deriving DecidableEq

/-- `broadcast_to_room` (main.py lines 254-267): sends to every registered
connection in order, collecting the ones whose send raises, then removes each
collected connection from the room's list.  Returns the list of connections
that received the message and the remaining registered list. -/
def broadcast_to_room (conns : List Conn) : List Conn × List Conn :=
  let disconnected := conns.filter (fun c => !c.alive)
  let delivered := conns.filter (fun c => c.alive)
  let remaining := disconnected.foldl (fun acc ws => acc.erase ws) conns
  (delivered, remaining)

/-- The derived piece phase of the specification's data model:
`AtHome` ⇔ still in the pen, `Finished` ⇔ at the terminal index 57,
`OnTrack` otherwise. -/
inductive PiecePhase where
  | atHome
  | onTrack
  | finished
  deriving DecidableEq

def piece_phase (p : Piece) : PiecePhase :=
  if p.home then .atHome
  else if p.index = final_home then .finished
  else .onTrack

/-- The specification's invariant: an `OnTrack` piece has `trackIndex`
in [1, 57]. -/
def room_inv (r : Room) : Prop :=
  ∀ pl ∈ r.players, ∀ p ∈ pl.pieces, piece_phase p = .onTrack → 1 ≤ p.index ∧ p.index ≤ 57

/-- Dice values only ever come from `random.randint(1, 6)`. -/
def dice_inv (r : Room) : Prop :=
  ∀ d, r.dice_result = some d → 1 ≤ d ∧ d ≤ 6

instance (r : Room) : Decidable (room_inv r) := by
  unfold room_inv; infer_instance

instance (r : Room) : Decidable (dice_inv r) := by
  unfold dice_inv
  exact match h : r.dice_result with
    | none => .isTrue (by simp [h])
    | some d => decidable_of_iff (1 ≤ d ∧ d ≤ 6) (by simp [h])

/-- Whether, before the move, the piece named by the pending move would reach
the terminal index (the condition of main.py lines 221-222, computed from the
pre-state). -/
def move_finishes (piece : Piece) (d : Nat) : Bool :=
  !piece.home && (new_index_code piece.index d == final_home)

/-- Whether, before the move, the pending move would capture at least one
opponent piece (the condition of main.py lines 223-231, computed from the
pre-state). -/
def move_captures (players : List Player) (cpId : String) (piece : Piece) (d : Nat) : Bool :=
  let ni := new_index_code piece.index d
  !piece.home && (!(safe_squares.contains ni) && decide (ni ≤ home_entry))
    && capture_possible cpId ni players

/-- The moved room, projected out of a handler result. -/
def room_after (r? : Option (Room × List Event)) : Option Room :=
  r?.map (fun rm => rm.1)

/-- The current turn after a handler result. -/
def turn_after (r? : Option (Room × List Event)) : Option Nat :=
  r?.map (fun rm => rm.1.current_turn)

/-- The pending dice value after a handler result. -/
def dice_after (r? : Option (Room × List Event)) : Option (Option Nat) :=
  r?.map (fun rm => rm.1.dice_result)

/-- The player at index `j` after a handler result. -/
def players_after (r? : Option (Room × List Event)) (j : Nat) : Option Player :=
  r?.bind (fun rm => rm.1.players[j]?)

/-- The piece with id `pcid` of the player at index `t`, after a handler
result. -/
def moved_piece_after (r? : Option (Room × List Event)) (t : Nat) (pcid : String) : Option Piece :=
  r?.bind (fun rm => (rm.1.players[t]?).bind (fun pl => pl.pieces.find? (fun p => p.pid == pcid)))

/-! Concrete rooms used by counterexamples and witnesses.  All of them are
reachable through the handlers themselves from freshly created rooms. -/

/-- Four pieces still in the pen, as built at join time (main.py
lines 118-121). -/
def home_pieces (tag : String) : List Piece :=
  [⟨tag ++ "1", "home", 0, true⟩, ⟨tag ++ "2", "home", 0, true⟩,
   ⟨tag ++ "3", "home", 0, true⟩, ⟨tag ++ "4", "home", 0, true⟩]

def alice_home : Player := ⟨"pA", "alice", Color.red, home_pieces "a"⟩

def bob_home : Player := ⟨"pB", "bob", Color.blue, home_pieces "b"⟩

def bob_at48 : Player :=
  ⟨"pB", "bob", Color.blue,
   [⟨"b1", "48", 48, false⟩, ⟨"b2", "home", 0, true⟩, ⟨"b3", "home", 0, true⟩,
    ⟨"b4", "home", 0, true⟩]⟩

/-- C1 scenario: blue's piece b1 sits at shared cell 48, 14 steps past blue's
entry cell 40; blue is the current player and holds a pending 6. -/
def c1_room : Room := ⟨[alice_home, bob_at48], 1, "playing", some 6⟩

/-- The room the source produces for the C1 scenario: b1 stored at
home-stretch cell "bf54". -/
def c1_room_after : Room :=
  ⟨[alice_home,
    ⟨"pB", "bob", Color.blue,
     [⟨"b1", "bf54", 54, false⟩, ⟨"b2", "home", 0, true⟩, ⟨"b3", "home", 0, true⟩,
      ⟨"b4", "home", 0, true⟩]⟩],
   1, "playing", none⟩

def alice_done : Player :=
  ⟨"pA", "alice", Color.red,
   [⟨"a1", "rf57", 57, false⟩, ⟨"a2", "rf57", 57, false⟩, ⟨"a3", "rf57", 57, false⟩,
    ⟨"a4", "rf57", 57, false⟩]⟩

/-- C2 scenario: alice has already won (phase Finished, all four pieces at
57, turn still hers because finishing grants an extra turn) and has rolled
again, which the engine allowed and stored. -/
def c2_room : Room := ⟨[alice_done, bob_at48], 0, "finished", some 1⟩

/-- C3 scenario: a pending roll of 5 is already stored and alice, the current
player, rolls again. -/
def c3_room : Room := ⟨[alice_home, bob_at48], 0, "playing", some 5⟩

/-- C4 scenario: alice, the current player, sends `move_piece` although no
dice value is pending. -/
def c4_room : Room := ⟨[alice_home, bob_at48], 0, "playing", none⟩

/-- C7 scenario: a finished two-player room receives `start_game` again. -/
def c7_room : Room := ⟨[alice_home, bob_at48], 0, "finished", none⟩

def alice_at48 : Player :=
  ⟨"pA", "alice", Color.red,
   [⟨"a1", "48", 48, false⟩, ⟨"a2", "home", 0, true⟩, ⟨"a3", "home", 0, true⟩,
    ⟨"a4", "home", 0, true⟩]⟩

def bob_at51 : Player :=
  ⟨"pB", "bob", Color.blue,
   [⟨"b1", "51", 51, false⟩, ⟨"b2", "home", 0, true⟩, ⟨"b3", "home", 0, true⟩,
    ⟨"b4", "home", 0, true⟩]⟩

/-- C5 witness scenario (spec §8): red at 48 with a pending 3 lands on 51
where blue's b1 sits; the capture grants an extra turn. -/
def c5w_room : Room := ⟨[alice_at48, bob_at51], 0, "playing", some 3⟩

/-- C6 witness scenario: same capture situation as the §8 scenario. -/
def c6w_room : Room := ⟨[alice_at48, bob_at51], 0, "playing", some 3⟩

/-- Blue's player row of `c6w_room` after alice's capture landed on 51. -/
def bob_captured : Player :=
  ⟨"pB", "bob", Color.blue,
   [⟨"b1", "home", 0, true⟩, ⟨"b2", "home", 0, true⟩, ⟨"b3", "home", 0, true⟩,
    ⟨"b4", "home", 0, true⟩]⟩

/-- C8 witness scenario: a playing room with a pending 3 and red's a1 on
track at 48. -/
def c8w_room : Room := ⟨[alice_at48, bob_home], 0, "playing", some 3⟩

/-- C10 witness scenario: identical situation, used to evaluate the index
arithmetic of the move. -/
def c10w_room : Room := ⟨[alice_at48, bob_home], 0, "playing", some 3⟩

/-! Helper lemmas. -/

lemma new_index_code_min (i d : Nat) : new_index_code i d = min (i + d) 57 := by
  simp only [new_index_code, home_entry, final_home]
  by_cases h : i + d ≤ 51
  · rw [if_pos h, Nat.mod_eq_of_lt (by omega), if_neg (by omega)]
    omega
  · rw [if_neg h]
    by_cases h2 : i + d > 57
    · rw [if_pos h2]; omega
    · rw [if_neg h2]; omega

lemma mem_set_piece {ps : List Piece} {q x : Piece} (hx : x ∈ set_piece ps q) :
    x ∈ ps ∨ x = q := by
  induction ps with
  | nil => simp [set_piece] at hx
  | cons p ps ih =>
    rw [set_piece] at hx
    by_cases h : p.pid = q.pid
    · rw [if_pos h] at hx
      rcases List.mem_cons.1 hx with h1 | h1
      · right; exact h1
      · left; exact List.mem_cons_of_mem _ h1
    · rw [if_neg h] at hx
      rcases List.mem_cons.1 hx with h1 | h1
      · left; exact h1 ▸ List.mem_cons_self _ _
      · rcases ih h1 with h2 | h2
        · left; exact List.mem_cons_of_mem _ h2
        · right; exact h2

lemma length_set_piece (ps : List Piece) (q : Piece) :
    (set_piece ps q).length = ps.length := by
  induction ps with
  | nil => rfl
  | cons p ps ih =>
    rw [set_piece]
    split <;> simp [ih]

lemma find?_set_piece {ps : List Piece} {pcid : String} {piece q : Piece}
    (hf : ps.find? (fun p => p.pid == pcid) = some piece) (hq : q.pid = piece.pid) :
    (set_piece ps q).find? (fun p => p.pid == pcid) = some q := by
  induction ps with
  | nil => simp at hf
  | cons p ps ih =>
    by_cases hp : (p.pid == pcid) = true
    · have hpe : p = piece := by simpa [hp] using hf
      have hqq : (q.pid == pcid) = true := by rw [hq, ← hpe]; exact hp
      rw [set_piece, if_pos (by rw [hpe]; exact hq.symm)]
      simp [hqq]
    · have hf' : ps.find? (fun p => p.pid == pcid) = some piece := by
        simpa [hp] using hf
      have hb := List.find?_some hf'
      have hpcid : piece.pid = pcid := eq_of_beq hb
      have hne : p.pid ≠ q.pid := by
        rw [hq, hpcid]
        intro hc
        rw [hc] at hp
        exact hp (beq_self_eq_true _)
      rw [set_piece, if_neg hne]
      simpa [hp] using ih hf'

lemma any_set_eq {α : Type} {l : List α} {t : Nat} {a b : α} (f : α → Bool)
    (hget : l[t]? = some a) (hf : f b = f a) :
    (l.set t b).any f = l.any f := by
  induction l generalizing t with
  | nil => simp at hget
  | cons p ps ih =>
    cases t with
    | zero =>
      have hpa : p = a := by simpa using hget
      subst hpa
      simp [List.any_cons, hf]
    | succ n =>
      have hget' : ps[n]? = some a := by simpa using hget
      simp [List.any_cons, ih hget']

lemma capture_possible_with_move (room : Room) (cp : Player) (q : Piece) (ni : Nat)
    (hget : room.players[room.current_turn]? = some cp) :
    capture_possible cp.pid ni (with_move room cp q) = capture_possible cp.pid ni room.players := by
  unfold capture_possible with_move
  exact any_set_eq _ hget (by simp)

lemma move_piece_eq_found {room : Room} {cp : Player} {piece : Piece} {pid pcid : String}
    (hget : room.players[room.current_turn]? = some cp) (hpid : cp.pid = pid)
    (hfind : cp.pieces.find? (fun p => p.pid == pcid) = some piece) :
    move_piece room pid pcid = move_piece_found room cp piece := by
  unfold move_piece
  rw [hget]
  simp [hpid, hfind]

lemma move_piece_skip {room : Room} {cp : Player} {pid pcid : String}
    (hget : room.players[room.current_turn]? = some cp) (hpid : cp.pid = pid)
    (hfind : cp.pieces.find? (fun p => p.pid == pcid) = none) :
    move_piece room pid pcid = some (room, []) := by
  unfold move_piece
  rw [hget]
  simp [hpid, hfind]

lemma move_piece_wrong_player {room : Room} {cp : Player} {pid pcid : String}
    (hget : room.players[room.current_turn]? = some cp) (hpid : cp.pid ≠ pid) :
    move_piece room pid pcid = some (room, []) := by
  unfold move_piece
  rw [hget]
  simp [hpid]

lemma move_step_home6 {room : Room} {cp : Player} {piece : Piece}
    (hh : piece.home = true) (hd : room.dice_result = some 6) :
    move_step room cp piece =
      some (with_move room cp (entry_piece cp piece),
            set_piece cp.pieces (entry_piece cp piece), true) := by
  unfold move_step
  rw [hh, hd]
  rfl

lemma move_step_homeskip {room : Room} {cp : Player} {piece : Piece}
    (hh : piece.home = true) (hd : room.dice_result ≠ some 6) :
    move_step room cp piece = some (room.players, cp.pieces, false) := by
  unfold move_step
  rw [hh]
  rw [show (room.dice_result == some 6) = false from beq_eq_false_iff_ne.2 hd]
  rfl

lemma move_step_ontrack {room : Room} {cp : Player} {piece : Piece} {d : Nat}
    (hh : piece.home = false) (hd : room.dice_result = some d) :
    move_step room cp piece =
      some (ontrack_players room cp piece d,
            set_piece cp.pieces (moved_piece cp piece d), ontrack_extra room cp piece d) := by
  unfold move_step
  rw [hh, hd]
  rfl

lemma move_step_crash {room : Room} {cp : Player} {piece : Piece}
    (hh : piece.home = false) (hd : room.dice_result = none) :
    move_step room cp piece = none := by
  unfold move_step
  rw [hh, hd]
  rfl

lemma move_piece_found_eq {room : Room} {cp : Player} {piece : Piece}
    {players2 : List Player} {cpPieces : List Piece} {extra : Bool}
    (h : move_step room cp piece = some (players2, cpPieces, extra)) :
    move_piece_found room cp piece = some (finish_move room cp players2 cpPieces extra) := by
  unfold move_piece_found
  rw [h]

lemma move_piece_found_crash {room : Room} {cp : Player} {piece : Piece}
    (h : move_step room cp piece = none) :
    move_piece_found room cp piece = none := by
  unfold move_piece_found
  rw [h]

lemma finish_move_players (room : Room) (cp : Player) (players2 : List Player)
    (cpPieces : List Piece) (extra : Bool) :
    (finish_move room cp players2 cpPieces extra).1.players = players2 := rfl

lemma finish_move_dice (room : Room) (cp : Player) (players2 : List Player)
    (cpPieces : List Piece) (extra : Bool) :
    (finish_move room cp players2 cpPieces extra).1.dice_result = none := rfl

lemma finish_move_turn (room : Room) (cp : Player) (players2 : List Player)
    (cpPieces : List Piece) (extra : Bool) :
    (finish_move room cp players2 cpPieces extra).1.current_turn
      = if room.dice_result == some 6 || extra then room.current_turn
        else (room.current_turn + 1) % players2.length := rfl

lemma finish_move_game_state (room : Room) (cp : Player) (players2 : List Player)
    (cpPieces : List Piece) (extra : Bool) :
    (finish_move room cp players2 cpPieces extra).1.game_state = room.game_state
    ∨ (finish_move room cp players2 cpPieces extra).1.game_state = "finished" := by
  unfold finish_move
  by_cases hwin : cpPieces.all (fun p => p.index == final_home) = true
  · right; simp [hwin]
  · left; simp [hwin]

/-! Claim theorems. -/

/-- C1: the code decides the track-to-home-stretch transition on the
absolute cell number alone (`piece index + dice > 51`), not on the distance
traveled from the moving color's own entry cell, and it never wraps on the
shared ring.  Concretely, blue's piece at shared cell 48 — only 14 steps
past blue's entry cell 40 — moved by 6 is stored at the blue home-stretch
cell "bf54" (index 54, above `home_entry`), although its traveled distance
14 is far below the 51 steps the claim requires before the transition. -/
theorem c1_stretch_transition_ignores_entry :
    move_piece c1_room "pB" "b1" = some (c1_room_after, [Event.piece_moved])
    ∧ new_index_code 48 6 = 54
    ∧ home_entry < 54
    ∧ 48 + 6 - start_pos Color.blue = 14
    ∧ 14 < 51 := by
  refine ⟨?_, by decide, by decide, by decide, by decide⟩
  decide

/-- C3 counterexample: with a pending roll of 5 already stored, a second
`roll_dice` by the current player is not rejected — it is accepted and
overwrites the pending value, changing the room state. -/
theorem c3_counterexample :
    roll_dice c3_room "pA" 3
      = some ({ c3_room with dice_result := some 3 }, [Event.dice_rolled 3])
    ∧ c3_room.dice_result = some 5
    ∧ ({ c3_room with dice_result := some 3 } : Room) ≠ c3_room := by
  refine ⟨?_, by decide, by decide⟩
  decide

/-- C3 (amended): the handler never checks for an existing pending dice
value: a `roll_dice` by the current player while `pendingDiceValue` is
already set is accepted, the new value replaces the stored one, a
`dice_rolled` event is broadcast, and the rest of the room is unchanged. -/
theorem c3_amended_roll_overwrites (room : Room) (cp : Player) (pid : String) (d0 d : Nat)
    (hget : room.players[room.current_turn]? = some cp)
    (hpid : cp.pid = pid)
    (hpending : room.dice_result = some d0) :
    roll_dice room pid d = some ({ room with dice_result := some d }, [Event.dice_rolled d]) := by
  unfold roll_dice
  rw [hget]
  simp [hpid]

theorem c3_witness :
    roll_dice c3_room "pA" 3
      = some ({ c3_room with dice_result := some 3 }, [Event.dice_rolled 3]) :=
  c3_amended_roll_overwrites c3_room alice_home "pA" 5 3 (by decide) (by decide) (by decide)

/-- C7 counterexample: `start_game` on a room whose phase is already
Finished resets the phase to Playing — a backward phase transition the claim
rules out, taken although the phase was not Waiting. -/
theorem c7_counterexample :
    start_game c7_room = ({ c7_room with game_state := "playing" }, [Event.game_started])
    ∧ c7_room.game_state = "finished" := by
  refine ⟨?_, by decide⟩
  decide

/-- C7 (amended): `start_game` never consults the current phase: it sets the
phase to Playing whenever the room has at least 2 players — also when the
phase is already Playing or Finished, so Finished→Playing backward
transitions are possible — and leaves the room unchanged otherwise; the
other handlers never change the phase except `move_piece` setting it to
Finished on a win. -/
theorem c7_amended_phase_rules (room : Room) (pid pcid : String) (d : Nat) :
    ((start_game room).1.game_state
      = if 2 ≤ room.players.length then "playing" else room.game_state)
    ∧ (start_game room).1.players = room.players
    ∧ (start_game room).1.current_turn = room.current_turn
    ∧ (start_game room).1.dice_result = room.dice_result
    ∧ (∀ rm, roll_dice room pid d = some rm → rm.1.game_state = room.game_state)
    ∧ (∀ rm, move_piece room pid pcid = some rm →
        rm.1.game_state = room.game_state ∨ rm.1.game_state = "finished") := by
  refine ⟨?_, ?_, ?_, ?_, ?_, ?_⟩
  · unfold start_game; split <;> rfl
  · unfold start_game; split <;> rfl
  · unfold start_game; split <;> rfl
  · unfold start_game; split <;> rfl
  · intro rm hrm
    unfold roll_dice at hrm
    split at hrm
    · exact absurd hrm (by simp)
    · split at hrm
      · injection hrm with hrm
        rw [← hrm]
      · injection hrm with hrm
        rw [← hrm]
  · intro rm hrm
    unfold move_piece at hrm
    split at hrm
    · exact absurd hrm (by simp)
    · split at hrm
      · split at hrm
        · injection hrm with hrm
          rw [← hrm]
          exact Or.inl rfl
        · unfold move_piece_found at hrm
          split at hrm
          · exact absurd hrm (by simp)
          · injection hrm with hrm
            rw [← hrm]
            exact finish_move_game_state _ _ _ _ _
      · injection hrm with hrm
        rw [← hrm]
        exact Or.inl rfl

theorem c7_witness :
    (start_game c7_room).1.game_state
      = if 2 ≤ c7_room.players.length then "playing" else c7_room.game_state :=
  (c7_amended_phase_rules c7_room "pA" "a1" 1).1

/-- C2 counterexample: `c2_room` is a room whose phase is already Finished
(alice has won; she then rolled again, which the engine allowed).  A further
`move_piece` by alice is processed: it emits the win event a second time and
mutates the room (the stored dice value is consumed). -/
theorem c2_counterexample :
    move_piece c2_room "pA" "a1"
      = some ({ c2_room with dice_result := none },
              [Event.game_won "alice", Event.piece_moved])
    ∧ c2_room.game_state = "finished"
    ∧ ({ c2_room with dice_result := none } : Room) ≠ c2_room := by
  refine ⟨?_, by decide, by decide⟩
  decide

/-- C2 (amended): the handlers never consult the Finished phase: after
`room.phase` becomes Finished the engine keeps accepting actions — a
`roll_dice` by the current player still mutates the room (stores the new
value and broadcasts `dice_rolled`), and further `move_piece` actions by the
winner re-emit the win event (the win event is emitted on every resolved
move while all of the current player's pieces sit at the terminal index, not
exactly once). -/
theorem c2_amended_finished_not_guarded (room : Room) (cp : Player) (pid : String) (d : Nat)
    (hget : room.players[room.current_turn]? = some cp)
    (hpid : cp.pid = pid)
    (hfin : room.game_state = "finished") :
    roll_dice room pid d = some ({ room with dice_result := some d }, [Event.dice_rolled d])
    ∧ ({ room with dice_result := some d } : Room).game_state = "finished" := by
  constructor
  · unfold roll_dice
    rw [hget]
    simp [hpid]
  · exact hfin

theorem c2_witness :
    roll_dice c2_room "pA" 4
      = some ({ c2_room with dice_result := some 4 }, [Event.dice_rolled 4])
    ∧ ({ c2_room with dice_result := some 4 } : Room).game_state = "finished" :=
  c2_amended_finished_not_guarded c2_room alice_done "pA" 4 (by decide) (by decide) (by decide)

/-- C4 counterexample: alice, the current player, sends `move_piece` for her
home piece a1 while no dice value is pending.  The action is not ignored:
the engine processes it as a null move, advances the turn to player 1 and
broadcasts a `piece_moved` event. -/
theorem c4_counterexample :
    move_piece c4_room "pA" "a1"
      = some ({ c4_room with current_turn := 1 }, [Event.piece_moved])
    ∧ c4_room.current_turn = 0
    ∧ c4_room.dice_result = none := by
  refine ⟨?_, by decide, by decide⟩
  decide

/-- C4 (amended): a `move_piece` naming a piece id the current player does
not own is silently ignored (state unchanged, no event, no error).  A
`move_piece` without a pending dice value is *not* ignored: for a home piece
the engine processes it as a null move — no piece moves, but the turn
advances and a `piece_moved` event is broadcast; for a non-home piece the
handler raises an uncaught exception. -/
theorem c4_amended_missing_roll (room : Room) (cp : Player) (pid pcid : String)
    (hget : room.players[room.current_turn]? = some cp)
    (hpid : cp.pid = pid) :
    (cp.pieces.find? (fun p => p.pid == pcid) = none →
      move_piece room pid pcid = some (room, []))
    ∧ (∀ piece, cp.pieces.find? (fun p => p.pid == pcid) = some piece →
        room.dice_result = none → piece.home = true → piece.index ≠ final_home →
        move_piece room pid pcid
          = some ({ room with
                      current_turn := (room.current_turn + 1) % room.players.length,
                      dice_result := none },
                  [Event.piece_moved]))
    ∧ (∀ piece, cp.pieces.find? (fun p => p.pid == pcid) = some piece →
        room.dice_result = none → piece.home = false →
        move_piece room pid pcid = none) := by
  refine ⟨?_, ?_, ?_⟩
  · intro hfind
    exact move_piece_skip hget hpid hfind
  · intro piece hfind hdice hhome hidx
    rw [move_piece_eq_found hget hpid hfind,
      move_piece_found_eq (move_step_homeskip hhome (by rw [hdice]; simp))]
    have hwin : (cp.pieces.all (fun p => p.index == final_home)) = false := by
      rw [List.all_eq_false]
      exact ⟨piece, List.mem_of_find?_eq_some hfind, by simp [hidx]⟩
    unfold finish_move
    rw [hdice]
    simp only [hwin]
    rfl
  · intro piece hfind hdice hhome
    rw [move_piece_eq_found hget hpid hfind]
    exact move_piece_found_crash (move_step_crash hhome hdice)

theorem c4_witness :
    move_piece c4_room "pA" "a1"
      = some ({ c4_room with
                  current_turn := (c4_room.current_turn + 1) % c4_room.players.length,
                  dice_result := none },
              [Event.piece_moved]) :=
  (c4_amended_missing_roll c4_room alice_home "pA" "a1" (by decide) (by decide)).2.1
    ⟨"a1", "home", 0, true⟩ (by decide) (by decide) (by decide) (by decide)

/-- C5: every `move_piece` that consumes a pending roll clears
`pendingDiceValue`, and the turn advances to `(turnIndex+1) mod
players.length` exactly when the consumed value was not 6, the moved piece
does not reach the terminal index, and no capture occurs; in every other
case `turnIndex` keeps its value. -/
theorem c5_turn_rule (room : Room) (cp : Player) (piece : Piece) (pid pcid : String) (d : Nat)
    (hget : room.players[room.current_turn]? = some cp)
    (hpid : cp.pid = pid)
    (hfind : cp.pieces.find? (fun p => p.pid == pcid) = some piece)
    (hdice : room.dice_result = some d) :
    dice_after (move_piece room pid pcid) = some none
    ∧ turn_after (move_piece room pid pcid)
        = some (if d = 6 ∨ move_finishes piece d = true
                     ∨ move_captures room.players cp.pid piece d = true
                then room.current_turn
                else (room.current_turn + 1) % room.players.length) := by
  rw [move_piece_eq_found hget hpid hfind]
  by_cases hh : piece.home = true
  · have hfin : move_finishes piece d = false := by simp [move_finishes, hh]
    have hcap : move_captures room.players cp.pid piece d = false := by
      simp [move_captures, hh]
    by_cases hd6 : d = 6
    · subst hd6
      rw [move_piece_found_eq (move_step_home6 hh (by rw [hdice]))]
      refine ⟨by simp [dice_after, finish_move_dice], ?_⟩
      simp [turn_after, finish_move_turn]
    · have hne : room.dice_result ≠ some 6 := by rw [hdice]; simpa using hd6
      rw [move_piece_found_eq (move_step_homeskip hh hne)]
      refine ⟨by simp [dice_after, finish_move_dice], ?_⟩
      simp [turn_after, finish_move_turn, hdice, hd6, hfin, hcap]
  · have hh' : piece.home = false := by simpa using hh
    rw [move_piece_found_eq (move_step_ontrack hh' hdice)]
    refine ⟨by simp [dice_after, finish_move_dice], ?_⟩
    have hlen : (ontrack_players room cp piece d).length = room.players.length := by
      unfold ontrack_players with_move
      split <;> simp
    have hextra : ontrack_extra room cp piece d
        = (move_finishes piece d || move_captures room.players cp.pid piece d) := by
      simp only [ontrack_extra, move_finishes, move_captures, do_capture]
      rw [capture_possible_with_move _ _ _ _ hget]
      simp [hh', Bool.and_assoc]
    simp only [turn_after, Option.map_some', finish_move_turn, hlen, hextra, hdice]
    simp only [Bool.or_eq_true, beq_iff_eq, Option.some.injEq, or_assoc]

/-- Helper: a piece whose derived phase is `OnTrack` is not in its pen. -/
lemma phase_onTrack_home {q : Piece} (h : piece_phase q = .onTrack) : q.home = false := by
  unfold piece_phase at h
  by_cases hq : q.home = true
  · rw [if_pos hq] at h
    cases h
  · simpa using hq

lemma mem_of_getElem?_players {l : List Player} {i : Nat} {a : Player}
    (h : l[i]? = some a) : a ∈ l := by
  rcases List.getElem?_eq_some_iff.1 h with ⟨hlt, hEq⟩
  exact hEq ▸ List.getElem_mem hlt

lemma ni_bounds {i d : Nat} (hd1 : 1 ≤ d) :
    1 ≤ new_index_code i d ∧ new_index_code i d ≤ 57 := by
  rw [new_index_code_min]
  omega

lemma start_pos_bounds (c : Color) : 1 ≤ start_pos c ∧ start_pos c ≤ 57 := by
  cases c <;> exact (by decide)

lemma moved_piece_bounds (cp : Player) (piece : Piece) (d : Nat) (hd1 : 1 ≤ d) :
    1 ≤ (moved_piece cp piece d).index ∧ (moved_piece cp piece d).index ≤ 57 :=
  ni_bounds hd1

/-- Every piece of every player in `with_move room cp q` satisfies the
`OnTrack` bounds, given that the original room does and `q` does. -/
lemma inv_with_move (room : Room) (cp : Player) (q : Piece)
    (hroom : room_inv room) (hcp : cp ∈ room.players)
    (hq : 1 ≤ q.index ∧ q.index ≤ 57) :
    ∀ pl ∈ with_move room cp q, ∀ p ∈ pl.pieces,
      piece_phase p = .onTrack → 1 ≤ p.index ∧ p.index ≤ 57 := by
  intro pl hpl p hp hph
  rcases List.mem_or_eq_of_mem_set hpl with hmem | hEq
  · exact hroom pl hmem p hp hph
  · subst hEq
    rcases mem_set_piece hp with hp' | hp'
    · exact hroom cp hcp p hp' hph
    · subst hp'
      exact hq

/-- Every piece of every player in `ontrack_players` satisfies the `OnTrack`
bounds. -/
lemma inv_ontrack_players (room : Room) (cp : Player) (piece : Piece) (d : Nat)
    (hroom : room_inv room) (hcp : cp ∈ room.players) (hd1 : 1 ≤ d) :
    ∀ pl ∈ ontrack_players room cp piece d, ∀ p ∈ pl.pieces,
      piece_phase p = .onTrack → 1 ≤ p.index ∧ p.index ≤ 57 := by
  have hwm := inv_with_move room cp (moved_piece cp piece d) hroom hcp
    (moved_piece_bounds cp piece d hd1)
  intro pl hpl p hp hph
  unfold ontrack_players at hpl
  by_cases hcap : do_capture piece d = true
  · rw [if_pos hcap] at hpl
    rcases List.mem_map.1 hpl with ⟨pl0, hpl0, rfl⟩
    unfold apply_capture at hp
    by_cases hpid0 : pl0.pid = cp.pid
    · rw [if_pos hpid0] at hp
      exact hwm pl0 hpl0 p hp hph
    · rw [if_neg hpid0] at hp
      rcases List.mem_map.1 hp with ⟨q, hq, rfl⟩
      unfold capture_reset at hph ⊢
      by_cases hqc : q.index = new_index_code piece.index d ∧ q.home = false
      · rw [if_pos hqc] at hph ⊢
        exact absurd hph (by simp [piece_phase])
      · rw [if_neg hqc] at hph ⊢
        exact hwm pl0 hpl0 q hq hph
  · rw [if_neg hcap] at hpl
    exact hwm pl hpl p hp hph

/-- Every piece of every player produced by a successful `move_step`
satisfies the `OnTrack` bounds. -/
lemma inv_players_of_step (room : Room) (cp : Player) (piece : Piece)
    (hget : room.players[room.current_turn]? = some cp)
    (hroom : room_inv room) (hdice : dice_inv room)
    {players2 : List Player} {cpPieces : List Piece} {extra : Bool}
    (hstep : move_step room cp piece = some (players2, cpPieces, extra)) :
    ∀ pl ∈ players2, ∀ p ∈ pl.pieces,
      piece_phase p = .onTrack → 1 ≤ p.index ∧ p.index ≤ 57 := by
  have hcp : cp ∈ room.players := mem_of_getElem?_players hget
  by_cases hh : piece.home = true
  · by_cases hd6 : room.dice_result = some 6
    · rw [move_step_home6 hh hd6] at hstep
      injection hstep with hstep
      cases hstep
      exact inv_with_move room cp _ hroom hcp
        (show 1 ≤ start_pos cp.color ∧ start_pos cp.color ≤ 57 from start_pos_bounds cp.color)
    · rw [move_step_homeskip hh hd6] at hstep
      injection hstep with hstep
      cases hstep
      exact hroom
  · have hh' : piece.home = false := by simpa using hh
    cases hdr : room.dice_result with
    | none =>
      rw [move_step_crash hh' hdr] at hstep
      cases hstep
    | some d =>
      rw [move_step_ontrack hh' hdr] at hstep
      injection hstep with hstep
      cases hstep
      exact inv_ontrack_players room cp piece d hroom hcp (hdice d hdr).1

/-- `move_piece` preserves the room invariant. -/
lemma room_inv_move_piece (room : Room) (pid pcid : String)
    (hroom : room_inv room) (hdice : dice_inv room)
    (rm : Room × List Event) (h : move_piece room pid pcid = some rm) :
    room_inv rm.1 := by
  cases hget : room.players[room.current_turn]? with
  | none =>
    unfold move_piece at h
    rw [hget] at h
    exact absurd h (by simp)
  | some cp =>
    by_cases hpid : cp.pid = pid
    · cases hfind : cp.pieces.find? (fun p => p.pid == pcid) with
      | none =>
        rw [move_piece_skip hget hpid hfind] at h
        injection h with h
        rw [← h]
        exact hroom
      | some piece =>
        rw [move_piece_eq_found hget hpid hfind] at h
        unfold move_piece_found at h
        cases hstep : move_step room cp piece with
        | none =>
          rw [hstep] at h
          exact absurd h (by simp)
        | some s =>
          obtain ⟨players2, cpPieces, extra⟩ := s
          rw [hstep] at h
          injection h with h
          rw [← h]
          intro pl hpl p hp hph
          exact inv_players_of_step room cp piece hget hroom hdice hstep pl hpl p hp hph
    · rw [move_piece_wrong_player hget hpid] at h
      injection h with h
      rw [← h]
      exact hroom

/-- The result of an on-track move contains the moved piece, retrievable by
its id at the mover's player slot. -/
lemma moved_piece_after_ontrack (room : Room) (cp : Player) (piece : Piece)
    (pid pcid : String) (d : Nat)
    (hget : room.players[room.current_turn]? = some cp)
    (hpid : cp.pid = pid)
    (hfind : cp.pieces.find? (fun p => p.pid == pcid) = some piece)
    (hdice : room.dice_result = some d)
    (hh : piece.home = false) :
    moved_piece_after (move_piece room pid pcid) room.current_turn pcid
      = some (moved_piece cp piece d) := by
  rcases List.getElem?_eq_some_iff.1 hget with ⟨hlt, -⟩
  rw [move_piece_eq_found hget hpid hfind,
    move_piece_found_eq (move_step_ontrack hh hdice)]
  simp only [moved_piece_after, Option.some_bind, finish_move_players]
  unfold ontrack_players
  by_cases hcap : do_capture piece d = true
  · rw [if_pos hcap, List.getElem?_map]
    unfold with_move
    rw [List.getElem?_set_eq_of_lt _ hlt]
    simp only [Option.map_some', Option.some_bind]
    unfold apply_capture
    rw [if_pos rfl]
    exact find?_set_piece hfind rfl
  · rw [if_neg hcap]
    unfold with_move
    rw [List.getElem?_set_eq_of_lt _ hlt]
    simp only [Option.some_bind]
    exact find?_set_piece hfind rfl

/-- C6: when an on-track move lands on a shared-track cell (numeric index at
most `home_entry`) that is not a safe square, every opposing piece (a piece
of any player whose id differs from the mover's) occupying that cell and
currently `OnTrack` is reset to the pen (`home` flag set, index 0, position
"home"); every other opposing piece — in particular every piece on one of
the eight safe cells or when the landing cell is safe — is unchanged.  A
home entry on a 6 also never touches opponents. -/
theorem c6_capture_rule (room : Room) (cp : Player) (piece : Piece) (pid pcid : String) (d : Nat)
    (hget : room.players[room.current_turn]? = some cp)
    (hpid : cp.pid = pid)
    (hfind : cp.pieces.find? (fun p => p.pid == pcid) = some piece)
    (hdice : room.dice_result = some d) :
    (piece.home = false →
      ∀ j pl, room.players[j]? = some pl → pl.pid ≠ cp.pid →
        players_after (move_piece room pid pcid) j
          = some { pl with pieces := pl.pieces.map (fun q =>
              if new_index_code piece.index d ∉ safe_squares
                 ∧ new_index_code piece.index d ≤ home_entry
                 ∧ q.index = new_index_code piece.index d
                 ∧ piece_phase q = PiecePhase.onTrack
              then { q with index := 0, position := "home", home := true }
              else q) })
    ∧ (piece.home = true →
      ∀ j pl, room.players[j]? = some pl → pl.pid ≠ cp.pid →
        players_after (move_piece room pid pcid) j = some pl) := by
  rw [move_piece_eq_found hget hpid hfind]
  have hjt : ∀ j pl, room.players[j]? = some pl → pl.pid ≠ cp.pid → room.current_turn ≠ j := by
    intro j pl hj hne hEq
    rw [← hEq, hget] at hj
    injection hj with hj
    exact hne (by rw [hj])
  constructor
  · intro hh j pl hj hne
    rw [move_piece_found_eq (move_step_ontrack hh hdice)]
    simp only [players_after, Option.some_bind, finish_move_players]
    unfold ontrack_players
    by_cases hcap : do_capture piece d = true
    · simp only [do_capture, Bool.and_eq_true] at hcap
      obtain ⟨h1, h2⟩ := hcap
      have hnsafe : new_index_code piece.index d ∉ safe_squares := by simpa using h1
      have hle : new_index_code piece.index d ≤ home_entry := by simpa using h2
      rw [if_pos (by simp only [do_capture, Bool.and_eq_true]; exact ⟨h1, h2⟩)]
      rw [List.getElem?_map]
      unfold with_move
      rw [List.getElem?_set_ne (hjt j pl hj hne), hj]
      simp only [Option.map_some']
      unfold apply_capture
      rw [if_neg hne]
      congr 1
      congr 1
      apply List.map_congr_left
      intro q hq
      by_cases hqc : q.index = new_index_code piece.index d ∧ q.home = false
      · have hphase : piece_phase q = PiecePhase.onTrack := by
          unfold piece_phase
          rw [if_neg (by rw [hqc.2]; simp)]
          rw [if_neg (by rw [hqc.1]; simp only [final_home]; revert hle; simp only [home_entry]; omega)]
        unfold capture_reset
        rw [if_pos hqc, if_pos ⟨hnsafe, hle, hqc.1, hphase⟩]
      · unfold capture_reset
        rw [if_neg hqc,
          if_neg (fun hcond => hqc ⟨hcond.2.2.1, phase_onTrack_home hcond.2.2.2⟩)]
    · rw [if_neg hcap]
      unfold with_move
      rw [List.getElem?_set_ne (hjt j pl hj hne), hj]
      have hncond : ¬(new_index_code piece.index d ∉ safe_squares
          ∧ new_index_code piece.index d ≤ home_entry) := by
        intro hc
        apply hcap
        simp only [do_capture, Bool.and_eq_true]
        exact ⟨by simpa using hc.1, by simpa using hc.2⟩
      have hmap : pl.pieces.map (fun q =>
          if new_index_code piece.index d ∉ safe_squares
             ∧ new_index_code piece.index d ≤ home_entry
             ∧ q.index = new_index_code piece.index d
             ∧ piece_phase q = PiecePhase.onTrack
          then { q with index := 0, position := "home", home := true }
          else q) = pl.pieces := by
        refine List.map_id'' (fun q => if_neg (fun hcond => hncond ⟨hcond.1, hcond.2.1⟩)) _
      rw [hmap]
  · intro hh j pl hj hne
    by_cases hd6 : d = 6
    · subst hd6
      rw [move_piece_found_eq (move_step_home6 hh (by rw [hdice]))]
      simp only [players_after, Option.some_bind, finish_move_players]
      unfold with_move
      rw [List.getElem?_set_ne (hjt j pl hj hne), hj]
    · have hne6 : room.dice_result ≠ some 6 := by rw [hdice]; simpa using hd6
      rw [move_piece_found_eq (move_step_homeskip hh hne6)]
      simp only [players_after, Option.some_bind, finish_move_players]
      exact hj

theorem c6_witness :
    players_after (move_piece c6w_room "pA" "a1") 1 = some bob_captured := by
  have h := (c6_capture_rule c6w_room alice_at48 ⟨"a1", "48", 48, false⟩ "pA" "a1" 3
    (by decide) (by decide) (by decide) (by decide)).1 (by decide) 1 bob_at51 (by decide) (by decide)
  rw [h]
  decide

theorem c5_witness :
    dice_after (move_piece c5w_room "pA" "a1") = some none
    ∧ turn_after (move_piece c5w_room "pA" "a1") = some 0 := by
  have h := c5_turn_rule c5w_room alice_at48 ⟨"a1", "48", 48, false⟩ "pA" "a1" 3
    (by decide) (by decide) (by decide) (by decide)
  refine ⟨h.1, ?_⟩
  rw [h.2]
  decide

/-- C8: moving an `OnTrack` piece never yields an index outside [1, 57]
(last conjunct: the landed index of the moved piece is `new_index_code`,
which stays in [1, 57], and landing exactly on the terminal index leaves the
piece in the `Finished` phase), and all three handlers preserve the
invariant that an `OnTrack` piece has its index in [1, 57]. -/
theorem c8_invariant (room : Room) (pid pcid : String) (d0 : Nat)
    (hroom : room_inv room) (hdice : dice_inv room) :
    room_inv (start_game room).1
    ∧ (∀ rm, roll_dice room pid d0 = some rm → room_inv rm.1)
    ∧ (∀ rm, move_piece room pid pcid = some rm → room_inv rm.1)
    ∧ (∀ cp piece d, room.players[room.current_turn]? = some cp → cp.pid = pid →
        cp.pieces.find? (fun p => p.pid == pcid) = some piece →
        room.dice_result = some d → piece.home = false →
        (moved_piece_after (move_piece room pid pcid) room.current_turn pcid).map Piece.index
            = some (new_index_code piece.index d)
        ∧ 1 ≤ new_index_code piece.index d ∧ new_index_code piece.index d ≤ 57
        ∧ (new_index_code piece.index d = final_home →
            (moved_piece_after (move_piece room pid pcid) room.current_turn pcid).map piece_phase
              = some PiecePhase.finished)) := by
  refine ⟨?_, ?_, ?_, ?_⟩
  · have hpl : (start_game room).1.players = room.players := by
      unfold start_game
      split <;> rfl
    intro pl hpl' p hp hph
    exact hroom pl (hpl ▸ hpl') p hp hph
  · intro rm h
    unfold roll_dice at h
    split at h
    · exact absurd h (by simp)
    · split at h
      · injection h with h
        rw [← h]
        intro pl hpl p hp hph
        exact hroom pl hpl p hp hph
      · injection h with h
        rw [← h]
        exact hroom
  · intro rm h
    exact room_inv_move_piece room pid pcid hroom hdice rm h
  · intro cp piece d hget hpid hfind hdr hh
    have hext := moved_piece_after_ontrack room cp piece pid pcid d hget hpid hfind hdr hh
    have hd1 : 1 ≤ d := (hdice d hdr).1
    refine ⟨by rw [hext]; rfl, (ni_bounds hd1).1, (ni_bounds hd1).2, ?_⟩
    intro h57
    have hphase : piece_phase (moved_piece cp piece d) = PiecePhase.finished := by
      unfold piece_phase
      rw [if_neg (by simp [moved_piece])]
      rw [if_pos (show (moved_piece cp piece d).index = final_home from h57)]
    rw [hext, Option.map_some', hphase]

theorem c8_witness : room_inv (start_game c8w_room).1 ∧ room_inv c8w_room :=
  ⟨(c8_invariant c8w_room "pA" "a1" 3 (by decide) (by decide)).1, by decide⟩

/-- C9: broadcasting to a room whose registered connections are `l1 ++ c ::
l2`, where exactly the one connection `c` fails to receive, delivers the
message to all the other connections (`l1 ++ l2`, i.e. N-1 of the N
registered ones) and leaves exactly those — the successful ones — registered:
`c` is removed, the others stay. -/
theorem c9_broadcast_prunes (l1 l2 : List Conn) (c : Conn)
    (hc : c.alive = false)
    (hlive : ∀ x ∈ l1 ++ l2, x.alive = true) :
    broadcast_to_room (l1 ++ c :: l2) = (l1 ++ l2, l1 ++ l2)
    ∧ (l1 ++ c :: l2).length = (l1 ++ l2).length + 1 := by
  have hl1 : ∀ x ∈ l1, x.alive = true := fun x hx => hlive x (List.mem_append_left _ hx)
  have hl2 : ∀ x ∈ l2, x.alive = true := fun x hx => hlive x (List.mem_append_right _ hx)
  have hcl1 : c ∉ l1 := by
    intro hmem
    rw [hl1 c hmem] at hc
    cases hc
  have hdisc : (l1 ++ c :: l2).filter (fun x => !x.alive) = [c] := by
    rw [List.filter_append, List.filter_cons_of_pos (by simp [hc])]
    rw [List.filter_eq_nil_iff.2 (fun a ha => by simp [hl1 a ha]),
      List.filter_eq_nil_iff.2 (fun a ha => by simp [hl2 a ha])]
    rfl
  have hdel : (l1 ++ c :: l2).filter (fun x => x.alive) = l1 ++ l2 := by
    rw [List.filter_append, List.filter_cons_of_neg (by simp [hc])]
    rw [List.filter_eq_self.2 hl1, List.filter_eq_self.2 hl2]
  constructor
  · show ((l1 ++ c :: l2).filter (fun x => x.alive),
        ((l1 ++ c :: l2).filter (fun x => !x.alive)).foldl
          (fun acc ws => acc.erase ws) (l1 ++ c :: l2))
      = (l1 ++ l2, l1 ++ l2)
    rw [hdisc, hdel]
    simp only [List.foldl_cons, List.foldl_nil]
    rw [List.erase_append_right (c :: l2) hcl1, List.erase_cons_head]
  · simp only [List.length_append, List.length_cons]
    omega

theorem c9_witness :
    broadcast_to_room [Conn.mk 1 true, Conn.mk 2 false, Conn.mk 3 true]
      = ([Conn.mk 1 true, Conn.mk 3 true], [Conn.mk 1 true, Conn.mk 3 true])
    ∧ ([Conn.mk 1 true, Conn.mk 2 false, Conn.mk 3 true].length : Nat)
      = [Conn.mk 1 true, Conn.mk 3 true].length + 1 :=
  c9_broadcast_prunes [Conn.mk 1 true] [Conn.mk 3 true] (Conn.mk 2 false)
    (by decide) (by decide)

/-- C10: moving an `OnTrack` piece with a dice value in [1, 6] stores index
`min (old + d) 57` for the moved piece: the index never decreases and in
particular never wraps from the high cells of the shared track back to the
low ones (`new_index_code` equals the clamped sum for every such input). -/
theorem c10_no_wrap (room : Room) (cp : Player) (piece : Piece) (pid pcid : String) (d : Nat)
    (hget : room.players[room.current_turn]? = some cp)
    (hpid : cp.pid = pid)
    (hfind : cp.pieces.find? (fun p => p.pid == pcid) = some piece)
    (hdice : room.dice_result = some d)
    (hh : piece.home = false)
    (hi1 : 1 ≤ piece.index) (hi2 : piece.index ≤ 57)
    (hd1 : 1 ≤ d) (hd2 : d ≤ 6) :
    (moved_piece_after (move_piece room pid pcid) room.current_turn pcid).map Piece.index
        = some (min (piece.index + d) 57)
    ∧ piece.index ≤ min (piece.index + d) 57
    ∧ new_index_code piece.index d = min (piece.index + d) 57 := by
  have hext := moved_piece_after_ontrack room cp piece pid pcid d hget hpid hfind hdice hh
  refine ⟨?_, by omega, new_index_code_min _ _⟩
  rw [hext, Option.map_some',
    show (moved_piece cp piece d).index = new_index_code piece.index d from rfl,
    new_index_code_min]

theorem c10_witness :
    (moved_piece_after (move_piece c10w_room "pA" "a1") 0 "a1").map Piece.index
        = some (min (48 + 3) 57)
    ∧ (48 : Nat) ≤ min (48 + 3) 57 := by
  have h := c10_no_wrap c10w_room alice_at48 ⟨"a1", "48", 48, false⟩ "pA" "a1" 3
    (by decide) (by decide) (by decide) (by decide) (by decide) (by decide) (by decide)
    (by decide) (by decide)
  exact ⟨h.1, h.2.1⟩

end Ludo
